import Mathlib

/-!
A shallow embedding of the dependency-injection core of the Injectinator
repository (`src/injector.ts`), together with proofs about its behaviour.

Modelling conventions:

* JavaScript values are modelled by the inductive `Value`; JS truthiness is
  `Value.truthy`.  Object identity is modelled by a reference number carried
  by `Value.obj`, allocated from a counter in `World`.
* `InjectorToken<T> = string | symbol | Type<T>` is modelled by `Token`
  (strings, symbols by number, and object/class identity by number).
* Classes and factory functions are both modelled by `Target`: `tid` is the
  function object's identity, `hasPrototype` models the structural
  `fnOrConstructor.prototype` test in `Injector.apply`, `manifest` models
  `Reflect.getMetadata('design:paramtypes', fnOrConstructor)` (an ordered
  token list, or `none` when no metadata is available), and `run` gives the
  value produced when the target is invoked as a plain function (its second
  argument is the number of earlier invocations, so stateful factories such
  as jest mocks are representable).  Invoking a constructable instead
  allocates a fresh object reference.
* The three provider classes (`ClassProvider`, `ObjectProvider`,
  `FactoryProvider`) become the three constructors of `Provider`; the
  private `instance` cache field is the `inst` component.
* An `Injector` owns `dependencies : Map<InjectorToken, Provider>` and a
  `parent : Injector | null`.  The parent chain is represented as the list
  `chain`: the head is this injector's own registry, the tail is the
  parent's chain (`[]` tail = root, i.e. `parent === null`).
* In-place mutation (provider caches, map updates) is modelled by explicit
  state passing: operations return the updated injector and world.
* `resolve`, `apply` and `Provider.get` are mutually recursive in the
  source with no termination guarantee (the spec notes cyclic manifests
  overflow the call stack).  They are therefore defined by a fuel-indexed
  interpreter; running out of fuel produces the distinguished
  `DiErr.stackOverflow`, the analogue of exhausting the JS call stack.
  Every recursive call consumes one unit of fuel.
-/

inductive Token where
  | str (s : String)
  | sym (n : Nat)
  | ref (n : Nat)
deriving DecidableEq, Repr

/-- JS truthiness of a token value (`dto.token` check in `bind`):
the empty string is falsy, symbols and objects are truthy. -/
def Token.truthyTok : Token → Bool
  | .str s => if s = "" then false else true
  | .sym _ => true
  | .ref _ => true

inductive Value where
  | undef
  | null
  | bool (b : Bool)
  | num (n : Int)
  | str (s : String)
  | obj (r : Nat)
  | arr (elems : List Value)

/-- JS truthiness of a value. -/
def Value.truthy : Value → Bool
  | .undef => false
  | .null => false
  | .bool b => b
  | .num n => if n = 0 then false else true
  | .str s => if s = "" then false else true
  | .obj _ => true
  | .arr _ => true

/-- Error taxonomy of the core (spec section 7). -/
inductive DiErr where
  | unresolvedToken (t : Token)
  | manifestUnavailable (tid : Nat)
  | invalidProvider
  | globalInjectorAlreadySet
  | stackOverflow
deriving DecidableEq, Repr

/-- A constructable class or factory function (`Type<T> | FactoryFunction<T>`). -/
structure Target where
  tid : Nat
  hasPrototype : Bool
  manifest : Option (List Token)
  run : List Value → Nat → Value

/-- The three provider classes of `injector.ts`.  Constructor argument order
follows the source constructors, with the private `instance` cache inserted
as `inst` (initially `none`). -/
inductive Provider where
  | ClassProvider (clazz : Target) (isSingleton : Bool) (inst : Option Value) (token : Token)
  | ObjectProvider (obj : Value) (token : Token)
  | FactoryProvider (factory : Target) (isSingleton : Bool) (inst : Option Value) (token : Token)

def Provider.token : Provider → Token
  | .ClassProvider _ _ _ t => t
  | .ObjectProvider _ t => t
  | .FactoryProvider _ _ _ t => t

/-- An `Injector`: `chain.headD []` is its own `dependencies` map (as an
insertion-ordered association list, like a JS `Map`), and the tail of
`chain` is the parent injector's chain (empty tail = `parent === null`). -/
structure Injector where
  chain : List (List (Token × Provider))

def Injector.deps (i : Injector) : List (Token × Provider) := i.chain.headD []

/-- The `parent` reference: `none` models `parent === null`. -/
def Injector.parent? (i : Injector) : Option Injector :=
  match i.chain with
  | [] => none
  | [_] => none
  | _ :: rest => some ⟨rest⟩

/-- `spawn()`: a child injector with `this` as parent. -/
def Injector.spawn (i : Injector) : Injector := ⟨[] :: i.chain⟩

/-- `new Injector(null)`: a root injector with an empty registry. -/
def rootInjector : Injector := ⟨[[]]⟩

/-- `Map.get` on the dependency map. -/
def lookupDep : List (Token × Provider) → Token → Option Provider
  | [], _ => none
  | (k, p) :: rest, t => if k = t then some p else lookupDep rest t

/-- `Map.has` on the dependency map. -/
def hasKey (l : List (Token × Provider)) (t : Token) : Bool :=
  (lookupDep l t).isSome

/-- `Map.set`: replace the entry in place if present, else append. -/
def setEntry : List (Token × Provider) → Token → Provider → List (Token × Provider)
  | [], t, p => [(t, p)]
  | (k, q) :: rest, t, p =>
    if k = t then (t, p) :: rest else (k, q) :: setEntry rest t p

/-- Ambient mutable facts: the fresh-object allocator and the log of target
invocations (target id together with the positional argument list). -/
structure World where
  nextRef : Nat
  calls : List (Nat × List Value)

def countCalls (calls : List (Nat × List Value)) (tid : Nat) : Nat :=
  (calls.filter (fun c => c.1 == tid)).length

/-- One fuel level of the mutually recursive operations
`Injector.resolve` (list form and single-token body), `Provider.get`
and `Injector.apply`. -/
structure Interp where
  resolveF : Injector → World → List Token →
    Except DiErr (List Value) × Injector × World
  resolveOneF : Injector → World → Token →
    Except DiErr Value × Injector × World
  getF : Provider → Injector → World →
    Except DiErr Value × Provider × Injector × World
  applyF : Injector → World → Target →
    Except DiErr Value × Injector × World

/-- Out of fuel: every operation fails with `stackOverflow`. -/
def interpZero : Interp :=
  { resolveF := fun i w _ => (.error .stackOverflow, i, w)
    resolveOneF := fun i w _ => (.error .stackOverflow, i, w)
    getF := fun p i w => (.error .stackOverflow, p, i, w)
    applyF := fun i w _ => (.error .stackOverflow, i, w) }

/-- One step of the interpreter; `prev` interprets all recursive calls.

`resolveF` is `tokens.map(...)` of `Injector.resolve`: left to right, and a
throw aborts the whole batch.  `resolveOneF` is the body of the map callback:
a local hit calls `provider.get(this)` (the provider's cache mutation is
written back into the map); otherwise, if a parent exists, it returns
`this.parent.resolve(token)` — the parent's whole result array, modelled by
`Value.arr` — and otherwise throws `UnresolvedToken`.

`getF` implements the three `get` methods: `ObjectProvider.get` returns the
wrapped value; `ClassProvider.get`/`FactoryProvider.get` check
`if (!this.instance)` (so a cached falsy value does not count as cached),
construct via `injector.apply`, and cache the result when `isSingleton`.

`applyF` implements `Injector.apply`: read the manifest metadata, throw if
unavailable, resolve every manifest token in order, then either construct
(`fnOrConstructor.prototype` truthy: allocate a fresh object reference) or
invoke as a plain function, logging the invocation either way. -/
def interpStep (prev : Interp) : Interp :=
  { resolveF := fun inj w ts =>
      match ts with
      | [] => (.ok [], inj, w)
      | t :: rest =>
        match prev.resolveOneF inj w t with
        | (.error e, inj1, w1) => (.error e, inj1, w1)
        | (.ok v, inj1, w1) =>
          match prev.resolveF inj1 w1 rest with
          | (.error e, inj2, w2) => (.error e, inj2, w2)
          | (.ok vs, inj2, w2) => (.ok (v :: vs), inj2, w2)
    resolveOneF := fun inj w t =>
      match lookupDep inj.deps t with
      | some prov =>
        match prev.getF prov inj w with
        | (.error e, _, inj1, w1) => (.error e, inj1, w1)
        | (.ok v, prov1, inj1, w1) =>
          (.ok v, ⟨setEntry inj1.deps t prov1 :: inj1.chain.tail⟩, w1)
      | none =>
        match inj.parent? with
        | some p =>
          match prev.resolveF p w [t] with
          | (.error e, p1, w1) => (.error e, ⟨inj.deps :: p1.chain⟩, w1)
          | (.ok vs, p1, w1) => (.ok (.arr vs), ⟨inj.deps :: p1.chain⟩, w1)
        | none => (.error (.unresolvedToken t), inj, w)
    getF := fun prov inj w =>
      match prov with
      | .ObjectProvider v tok => (.ok v, .ObjectProvider v tok, inj, w)
      | .ClassProvider clazz sing inst tok =>
        if sing then
          match inst with
          | some v =>
            if v.truthy then (.ok v, .ClassProvider clazz sing inst tok, inj, w)
            else
              match prev.applyF inj w clazz with
              | (.error e, inj1, w1) =>
                (.error e, .ClassProvider clazz sing inst tok, inj1, w1)
              | (.ok v1, inj1, w1) =>
                (.ok v1, .ClassProvider clazz sing (some v1) tok, inj1, w1)
          | none =>
            match prev.applyF inj w clazz with
            | (.error e, inj1, w1) =>
              (.error e, .ClassProvider clazz sing inst tok, inj1, w1)
            | (.ok v1, inj1, w1) =>
              (.ok v1, .ClassProvider clazz sing (some v1) tok, inj1, w1)
        else
          match prev.applyF inj w clazz with
          | (.error e, inj1, w1) =>
            (.error e, .ClassProvider clazz sing inst tok, inj1, w1)
          | (.ok v1, inj1, w1) =>
            (.ok v1, .ClassProvider clazz sing inst tok, inj1, w1)
      | .FactoryProvider f sing inst tok =>
        if sing then
          match inst with
          | some v =>
            if v.truthy then (.ok v, .FactoryProvider f sing inst tok, inj, w)
            else
              match prev.applyF inj w f with
              | (.error e, inj1, w1) =>
                (.error e, .FactoryProvider f sing inst tok, inj1, w1)
              | (.ok v1, inj1, w1) =>
                (.ok v1, .FactoryProvider f sing (some v1) tok, inj1, w1)
          | none =>
            match prev.applyF inj w f with
            | (.error e, inj1, w1) =>
              (.error e, .FactoryProvider f sing inst tok, inj1, w1)
            | (.ok v1, inj1, w1) =>
              (.ok v1, .FactoryProvider f sing (some v1) tok, inj1, w1)
        else
          match prev.applyF inj w f with
          | (.error e, inj1, w1) =>
            (.error e, .FactoryProvider f sing inst tok, inj1, w1)
          | (.ok v1, inj1, w1) =>
            (.ok v1, .FactoryProvider f sing inst tok, inj1, w1)
    applyF := fun inj w tgt =>
      match tgt.manifest with
      | none => (.error (.manifestUnavailable tgt.tid), inj, w)
      | some toks =>
        match prev.resolveF inj w toks with
        | (.error e, inj1, w1) => (.error e, inj1, w1)
        | (.ok vs, inj1, w1) =>
          if tgt.hasPrototype then
            (.ok (.obj w1.nextRef), inj1,
              ⟨w1.nextRef + 1, w1.calls ++ [(tgt.tid, vs)]⟩)
          else
            (.ok (tgt.run vs (countCalls w1.calls tgt.tid)), inj1,
              ⟨w1.nextRef, w1.calls ++ [(tgt.tid, vs)]⟩) }

def interp : Nat → Interp
  | 0 => interpZero
  | n + 1 => interpStep (interp n)

/-- `Injector.resolve(...tokens)`, at the given fuel. -/
def Injector.resolve (fuel : Nat) (inj : Injector) (w : World) (ts : List Token) :
    Except DiErr (List Value) × Injector × World :=
  (interp fuel).resolveF inj w ts

/-- The body of the `tokens.map` callback of `Injector.resolve`. -/
def Injector.resolveOne (fuel : Nat) (inj : Injector) (w : World) (t : Token) :
    Except DiErr Value × Injector × World :=
  (interp fuel).resolveOneF inj w t

/-- `provider.get(injector)`; also returns the provider with its updated cache. -/
def Provider.get (fuel : Nat) (p : Provider) (inj : Injector) (w : World) :
    Except DiErr Value × Provider × Injector × World :=
  (interp fuel).getF p inj w

/-- `Injector.apply(fnOrConstructor)`. -/
def Injector.apply (fuel : Nat) (inj : Injector) (w : World) (tgt : Target) :
    Except DiErr Value × Injector × World :=
  (interp fuel).applyF inj w tgt

/-- The `ProviderOptions<T>` record accepted by `bind`.  `oid` is the record
object's own identity, needed because the fall-through branch of `bind`
treats the record itself as a constructable and uses it as its own token. -/
structure ProviderOptions where
  key : Token
  provide : Option Target
  provideFactory : Option Target
  provideConstant : Option Value
  singleton : Option Bool
  oid : Nat

/-- The argument `dto` of `Injector.bind`, discriminated by its JS shape:
`null`, a ready-made `Provider` (with its object identity), a
`ProviderOptions` record, or a bare constructable. -/
inductive BindArg where
  | nullArg
  | provider (oid : Nat) (p : Provider)
  | options (opts : ProviderOptions)
  | bare (clazz : Target)

/-- A plain object viewed as a constructable by the fall-through branch
`new ClassProvider(dto as Type<T>, false)`: no `prototype` property and no
parameter-type metadata. -/
def objectToTarget (oid : Nat) : Target :=
  ⟨oid, false, none, fun _ _ => .undef⟩

/-- The provider `Injector.bind` hands to `_bind`, or `none` when `bind`
throws (`dto == null`).  The branch structure mirrors the source:

* `dto.get && dto.token`: `dto` is used as a `Provider` directly.  Every
  provider object has a `get` method; the check therefore reduces to the
  truthiness of its `token`.  A falsy token (the empty string) falls
  through to the option-record tests, which all fail on a provider object,
  landing in the bare-constructable branch with `dto` as its own token.
* `dto.provide` truthy: `new ClassProvider(provide, singleton ?? false, key)`.
* `dto.provideFactory != null`: `new FactoryProvider(provideFactory,
  singleton ?? false, key)`.
* `dto.provideConstant` truthy: `new ObjectProvider(provideConstant, key)`.
  Note the source tests the truthiness of the constant itself, so a falsy
  constant falls through to the bare-constructable branch.
* otherwise: `new ClassProvider(dto as Type<T>, false)`, whose token
  defaults to the constructable itself. -/
def mkProviderFromArg : BindArg → Option Provider
  | .nullArg => none
  | .provider oid p =>
    if p.token.truthyTok then some p
    else some (.ClassProvider (objectToTarget oid) false none (.ref oid))
  | .options opts =>
    match opts.provide with
    | some c => some (.ClassProvider c (opts.singleton.getD false) none opts.key)
    | none =>
      match opts.provideFactory with
      | some f => some (.FactoryProvider f (opts.singleton.getD false) none opts.key)
      | none =>
        match opts.provideConstant with
        | some v =>
          if v.truthy then some (.ObjectProvider v opts.key)
          else some (.ClassProvider (objectToTarget opts.oid) false none (.ref opts.oid))
        | none =>
          some (.ClassProvider (objectToTarget opts.oid) false none (.ref opts.oid))
  | .bare c => some (.ClassProvider c false none (.ref c.tid))

/-- `Injector._bind(provider)`: a duplicate token is a warning (the returned
Bool) and a no-op; otherwise the provider is added to the map.  Never throws. -/
def Injector.bindP (p : Provider) (inj : Injector) : Except DiErr Injector × Bool :=
  if hasKey inj.deps p.token then (.ok inj, true)
  else (.ok ⟨setEntry inj.deps p.token p :: inj.chain.tail⟩, false)

/-- `Injector.bind(dto)`: throws `InvalidProvider` on `null`, otherwise
resolves the argument to a provider and delegates to `_bind`.  The Bool
component reports whether the duplicate-binding warning was emitted. -/
def Injector.bind (dto : BindArg) (inj : Injector) : Except DiErr Injector × Bool :=
  match mkProviderFromArg dto with
  | none => (.error .invalidProvider, false)
  | some provider => inj.bindP provider

/-- The static global-injector state of class `Injector`:
`isReassigned` and `_globalInjector`. -/
structure GlobalState where
  isReassigned : Bool
  globalInjector : Option Injector

/-- The state at process start: flag down, no instance. -/
def initialGlobalState : GlobalState := ⟨false, none⟩

/-- The `GlobalInjector` getter: lazily creates `new Injector(null)` on
first access, marking the state as no longer reassignable. -/
def getGlobalInjector (gs : GlobalState) : Injector × GlobalState :=
  match gs.globalInjector with
  | none => (rootInjector, ⟨true, some rootInjector⟩)
  | some g => (g, gs)

/-- The `GlobalInjector` setter: throws if the global injector was already
used or assigned, otherwise stores the caller's instance and locks. -/
def setGlobalInjector (val : Injector) (gs : GlobalState) :
    Except DiErr Unit × GlobalState :=
  if gs.isReassigned then (.error .globalInjectorAlreadySet, gs)
  else (.ok (), ⟨true, some val⟩)

/-- The `Injector` constructor.  `parentArg = none` models calling
`new Injector()` with the parameter omitted (`parent === undefined`), which
reads the global injector; `some none` is an explicit `null` parent;
`some (some p)` is an explicit parent injector. -/
def mkInjector (parentArg : Option (Option Injector)) (gs : GlobalState) :
    Injector × GlobalState :=
  match parentArg with
  | none =>
    match getGlobalInjector gs with
    | (g, gs1) => (⟨[] :: g.chain⟩, gs1)
  | some none => (rootInjector, gs)
  | some (some p) => (⟨[] :: p.chain⟩, gs)

/-- Sanity-check invariant on global states: a stored global injector has a
nonempty chain and implies the lock flag, as in every state reachable from
`initialGlobalState`. -/
def GlobalState.wf (gs : GlobalState) : Prop :=
  match gs.globalInjector with
  | none => True
  | some g => g.chain.isEmpty = false ∧ gs.isReassigned = true

instance (gs : GlobalState) : Decidable gs.wf := by
  unfold GlobalState.wf
  match gs.globalInjector with
  | none => exact inferInstanceAs (Decidable True)
  | some g => exact inferInstanceAs (Decidable (_ ∧ _))

/-- A token is bound somewhere in the injector's resolution chain. -/
def boundInChain (inj : Injector) (t : Token) : Bool :=
  inj.chain.any fun reg => hasKey reg t

/-- The token-key skeleton of an injector: the keys of every registry along
the chain.  Resolution never adds or removes bindings, so this skeleton is
preserved by `resolve`, `apply` and `get`. -/
def keysOf (inj : Injector) : List (List Token) :=
  inj.chain.map fun reg => reg.map Prod.fst

/-! Concrete instances used by counterexamples and witnesses. -/

/-- The world at process start: no objects allocated, no calls made. -/
def w0 : World := ⟨0, []⟩

/-- A root injector with the constant `42` bound under token `"t"`. -/
def injR : Injector :=
  ⟨[[(Token.str "t", Provider.ObjectProvider (.num 42) (.str "t"))]]⟩

/-- `injR.spawn()`: a child of `injR` with no local bindings. -/
def injC : Injector := injR.spawn

/-- A `bind` argument `{key: "k", provideConstant: 0}` whose constant is
falsy; `7` is the identity of the option record itself. -/
def argC2 : BindArg := .options ⟨.str "k", none, none, some (.num 0), none, 7⟩

/-- A zero-argument factory function returning `0` on its first invocation
and `1` afterwards (a stateful mock). -/
def facC3 : Target :=
  ⟨3, false, some [], fun _ n => if n == 0 then Value.num 0 else Value.num 1⟩

/-- `new FactoryProvider(facC3, true, 'f')`: a singleton factory provider. -/
def provC3 : Provider := .FactoryProvider facC3 true none (.str "f")

/-- A constructable whose dependency manifest is `["x", "y"]`. -/
def ctorC4 : Target := ⟨1, true, some [.str "x", .str "y"], fun _ _ => .undef⟩

/-- A root injector binding the constants `1` under `"x"` and `2` under `"y"`. -/
def injC4 : Injector :=
  ⟨[[(Token.str "x", Provider.ObjectProvider (.num 1) (.str "x")),
     (Token.str "y", Provider.ObjectProvider (.num 2) (.str "y"))]]⟩

/-- A provider for constant `1` under token `"k"`. -/
def provP1 : Provider := .ObjectProvider (.num 1) (.str "k")

/-- A second provider for the same token `"k"`, wrapping constant `2`. -/
def provP2 : Provider := .ObjectProvider (.num 2) (.str "k")

/-- A root injector with `provP1` already bound under `"k"`. -/
def injK : Injector := ⟨[[(Token.str "k", provP1)]]⟩

/-- The injector produced by `bind(argC2)` on an empty root: the option
record itself got bound as a class provider under its own identity. -/
def injC2bound : Injector :=
  ⟨[[(Token.ref 7, Provider.ClassProvider (objectToTarget 7) false none (.ref 7))]]⟩

/-- A `bind` argument `{key: "j", provideConstant: 5}` (truthy constant);
`9` is the identity of the option record. -/
def argC9 : BindArg := .options ⟨.str "j", none, none, some (.num 5), none, 9⟩

/-- The injector produced by `bind(argC9)` on `injK`. -/
def injC9bound : Injector :=
  ⟨[[(Token.str "k", provP1),
     (Token.str "j", Provider.ObjectProvider (.num 5) (.str "j"))]]⟩

/-! Unfolding equations for the fueled operations. -/

theorem resolve_zero (inj : Injector) (w : World) (ts : List Token) :
    Injector.resolve 0 inj w ts = (.error .stackOverflow, inj, w) := rfl

theorem resolve_succ_nil (n : Nat) (inj : Injector) (w : World) :
    Injector.resolve (n + 1) inj w [] = (.ok [], inj, w) := rfl

theorem resolve_succ_cons (n : Nat) (inj : Injector) (w : World) (t : Token)
    (ts : List Token) :
    Injector.resolve (n + 1) inj w (t :: ts) =
      (match Injector.resolveOne n inj w t with
       | (.error e, inj1, w1) => (.error e, inj1, w1)
       | (.ok v, inj1, w1) =>
         match Injector.resolve n inj1 w1 ts with
         | (.error e, inj2, w2) => (.error e, inj2, w2)
         | (.ok vs, inj2, w2) => (.ok (v :: vs), inj2, w2)) := rfl

theorem resolveOne_zero (inj : Injector) (w : World) (t : Token) :
    Injector.resolveOne 0 inj w t = (.error .stackOverflow, inj, w) := rfl

theorem resolveOne_succ (n : Nat) (inj : Injector) (w : World) (t : Token) :
    Injector.resolveOne (n + 1) inj w t =
      (match lookupDep inj.deps t with
       | some prov =>
         match Provider.get n prov inj w with
         | (.error e, _, inj1, w1) => (.error e, inj1, w1)
         | (.ok v, prov1, inj1, w1) =>
           (.ok v, ⟨setEntry inj1.deps t prov1 :: inj1.chain.tail⟩, w1)
       | none =>
         match inj.parent? with
         | some p =>
           match Injector.resolve n p w [t] with
           | (.error e, p1, w1) => (.error e, ⟨inj.deps :: p1.chain⟩, w1)
           | (.ok vs, p1, w1) => (.ok (.arr vs), ⟨inj.deps :: p1.chain⟩, w1)
         | none => (.error (.unresolvedToken t), inj, w)) := rfl

theorem get_zero (p : Provider) (inj : Injector) (w : World) :
    Provider.get 0 p inj w = (.error .stackOverflow, p, inj, w) := rfl

theorem apply_zero (inj : Injector) (w : World) (tgt : Target) :
    Injector.apply 0 inj w tgt = (.error .stackOverflow, inj, w) := rfl

theorem apply_succ (n : Nat) (inj : Injector) (w : World) (tgt : Target) :
    Injector.apply (n + 1) inj w tgt =
      (match tgt.manifest with
       | none => (.error (.manifestUnavailable tgt.tid), inj, w)
       | some toks =>
         match Injector.resolve n inj w toks with
         | (.error e, inj1, w1) => (.error e, inj1, w1)
         | (.ok vs, inj1, w1) =>
           if tgt.hasPrototype then
             (.ok (.obj w1.nextRef), inj1,
               ⟨w1.nextRef + 1, w1.calls ++ [(tgt.tid, vs)]⟩)
           else
             (.ok (tgt.run vs (countCalls w1.calls tgt.tid)), inj1,
               ⟨w1.nextRef, w1.calls ++ [(tgt.tid, vs)]⟩)) := rfl

/-! Association-list lemmas about the dependency map. -/

theorem mem_keys_of_lookup {l : List (Token × Provider)} {t : Token}
    {p : Provider} (h : lookupDep l t = some p) : t ∈ l.map Prod.fst := by
  induction l with
  | nil => simp [lookupDep] at h
  | cons e rest ih =>
    obtain ⟨k, q⟩ := e
    by_cases hk : k = t
    · subst hk; simp
    · simp only [lookupDep, if_neg hk] at h
      simpa using Or.inr (ih h)

theorem lookup_none_of_not_mem {l : List (Token × Provider)} {t : Token}
    (h : t ∉ l.map Prod.fst) : lookupDep l t = none := by
  induction l with
  | nil => rfl
  | cons e rest ih =>
    obtain ⟨k, q⟩ := e
    simp only [List.map_cons, List.mem_cons, not_or] at h
    show (if k = t then some q else lookupDep rest t) = none
    rw [if_neg fun hh => h.1 hh.symm]
    exact ih h.2

theorem setEntry_keys {l : List (Token × Provider)} {t : Token}
    (p : Provider) (h : t ∈ l.map Prod.fst) :
    (setEntry l t p).map Prod.fst = l.map Prod.fst := by
  induction l with
  | nil => simp at h
  | cons e rest ih =>
    obtain ⟨k, q⟩ := e
    by_cases hk : k = t
    · subst hk; simp [setEntry]
    · simp only [List.map_cons, List.mem_cons] at h
      rcases h with h | h
      · exact absurd h.symm hk
      · simp [setEntry, if_neg hk, ih h]

theorem setEntry_self {l : List (Token × Provider)} {t : Token}
    {p : Provider} (h : lookupDep l t = some p) : setEntry l t p = l := by
  induction l with
  | nil => simp [lookupDep] at h
  | cons e rest ih =>
    obtain ⟨k, q⟩ := e
    by_cases hk : k = t
    · subst hk
      have h' : q = p := by simpa [lookupDep] using h
      subst h'
      simp [setEntry]
    · have h' : lookupDep rest t = some p := by simpa [lookupDep, hk] using h
      simp [setEntry, if_neg hk, ih h']

theorem setEntry_append_of_none {l : List (Token × Provider)} {t : Token}
    (p : Provider) (h : lookupDep l t = none) :
    setEntry l t p = l ++ [(t, p)] := by
  induction l with
  | nil => rfl
  | cons e rest ih =>
    obtain ⟨k, q⟩ := e
    by_cases hk : k = t
    · simp [lookupDep, hk] at h
    · have h' : lookupDep rest t = none := by simpa [lookupDep, hk] using h
      simp [setEntry, if_neg hk, ih h']

theorem lookup_append_left {l m : List (Token × Provider)} {t : Token}
    {p : Provider} (h : lookupDep l t = some p) :
    lookupDep (l ++ m) t = some p := by
  induction l with
  | nil => simp [lookupDep] at h
  | cons e rest ih =>
    obtain ⟨k, q⟩ := e
    by_cases hk : k = t
    · simp only [lookupDep, if_pos hk] at h ⊢; exact h
    · simp only [lookupDep, if_neg hk] at h ⊢; exact ih h

theorem lookup_append_of_none {l m : List (Token × Provider)} {t : Token}
    (h : lookupDep l t = none) :
    lookupDep (l ++ m) t = lookupDep m t := by
  induction l with
  | nil => rfl
  | cons e rest ih =>
    obtain ⟨k, q⟩ := e
    by_cases hk : k = t
    · simp [lookupDep, hk] at h
    · have h' : lookupDep rest t = none := by simpa [lookupDep, hk] using h
      have hstep : lookupDep ((k, q) :: rest ++ m) t = lookupDep (rest ++ m) t := by
        simp [lookupDep, hk]
      rw [hstep]
      exact ih h'

/-! The key skeleton of an injector is preserved by resolution. -/

theorem keysOf_spine (d : List (Token × Provider))
    (rest : List (List (Token × Provider))) :
    keysOf ⟨d :: rest⟩ = d.map Prod.fst :: keysOf ⟨rest⟩ := rfl

theorem resolveF_eq (n : Nat) : (interp n).resolveF = Injector.resolve n := rfl

theorem resolveOneF_eq (n : Nat) : (interp n).resolveOneF = Injector.resolveOne n := rfl

theorem getF_eq (n : Nat) : (interp n).getF = Provider.get n := rfl

theorem applyF_eq (n : Nat) : (interp n).applyF = Injector.apply n := rfl

/-- Resolution, construction and provider production never add or remove
bindings anywhere along the chain: the token-key skeleton of the injector
(and hence which tokens are bound at which level) is unchanged. -/
theorem keysOf_preserved (fuel : Nat) :
    (∀ inj w ts, keysOf (Injector.resolve fuel inj w ts).2.1 = keysOf inj) ∧
    (∀ inj w t, keysOf (Injector.resolveOne fuel inj w t).2.1 = keysOf inj) ∧
    (∀ p inj w, keysOf (Provider.get fuel p inj w).2.2.1 = keysOf inj) ∧
    (∀ inj w tg, keysOf (Injector.apply fuel inj w tg).2.1 = keysOf inj) := by
  induction fuel with
  | zero => refine ⟨?_, ?_, ?_, ?_⟩ <;> intros <;> rfl
  | succ n ih =>
    obtain ⟨ihR, ihO, ihG, ihA⟩ := ih
    refine ⟨?_, ?_, ?_, ?_⟩
    · intro inj w ts
      cases ts with
      | nil => rfl
      | cons t rest =>
        rw [resolve_succ_cons]
        rcases h1 : Injector.resolveOne n inj w t with ⟨r1, inj1, w1⟩
        have e1 : keysOf inj1 = keysOf inj := by
          have := ihO inj w t; rw [h1] at this; exact this
        cases r1 with
        | error e => simpa using e1
        | ok v =>
          simp only []
          rcases h2 : Injector.resolve n inj1 w1 rest with ⟨r2, inj2, w2⟩
          have e2 : keysOf inj2 = keysOf inj1 := by
            have := ihR inj1 w1 rest; rw [h2] at this; exact this
          cases r2 with
          | error e => simpa using e2.trans e1
          | ok vs => simpa using e2.trans e1
    · intro inj w t
      rw [resolveOne_succ]
      cases hl : lookupDep inj.deps t with
      | some prov =>
        simp only []
        rcases hg : Provider.get n prov inj w with ⟨rg, prov1, inj1, w1⟩
        have e1 : keysOf inj1 = keysOf inj := by
          have := ihG prov inj w; rw [hg] at this; exact this
        cases rg with
        | error e => simpa using e1
        | ok v =>
          cases hc : inj.chain with
          | nil =>
            exfalso
            have hnone : lookupDep inj.deps t = none := by
              simp [Injector.deps, hc, lookupDep]
            rw [hnone] at hl; exact Option.noConfusion hl
          | cons d rest =>
            have hdeps : inj.deps = d := by simp [Injector.deps, hc]
            have hmem : t ∈ d.map Prod.fst := by
              rw [hdeps] at hl; exact mem_keys_of_lookup hl
            cases hc1 : inj1.chain with
            | nil =>
              exfalso
              rw [keysOf, keysOf, hc, hc1] at e1
              exact List.noConfusion e1
            | cons d1 rest1 =>
              have e1' := e1
              rw [keysOf, keysOf, hc, hc1, List.map_cons, List.map_cons] at e1'
              have hd1 : d1.map Prod.fst = d.map Prod.fst :=
                (List.cons.inj e1').1
              have hrest1 : rest1.map (fun reg => reg.map Prod.fst)
                  = rest.map (fun reg => reg.map Prod.fst) :=
                (List.cons.inj e1').2
              have hdeps1 : inj1.deps = d1 := by simp [Injector.deps, hc1]
              have htail1 : inj1.chain.tail = rest1 := by simp [hc1]
              simp only [hdeps1, htail1]
              show (setEntry d1 t prov1 :: rest1).map (fun reg => reg.map Prod.fst)
                  = keysOf inj
              rw [List.map_cons, setEntry_keys prov1 (hd1 ▸ hmem), hd1, hrest1,
                keysOf, hc, List.map_cons]
      | none =>
        cases hp : inj.parent? with
        | none => rfl
        | some p =>
          simp only []
          rcases hr : Injector.resolve n p w [t] with ⟨r1, p1, w1⟩
          have e1 : keysOf p1 = keysOf p := by
            have := ihR p w [t]; rw [hr] at this; exact this
          cases hc : inj.chain with
          | nil => rw [Injector.parent?, hc] at hp; exact Option.noConfusion hp
          | cons d rest =>
            cases rest with
            | nil => rw [Injector.parent?, hc] at hp; exact Option.noConfusion hp
            | cons r2 rest2 =>
              have hpp : p = ⟨r2 :: rest2⟩ := by
                rw [Injector.parent?, hc] at hp
                exact (Option.some.inj hp).symm
              have hdeps : inj.deps = d := by simp [Injector.deps, hc]
              have goalkeys : keysOf ⟨inj.deps :: p1.chain⟩ = keysOf inj := by
                have hkp : List.map (fun reg => reg.map Prod.fst) p1.chain
                    = List.map (fun reg => reg.map Prod.fst) (r2 :: rest2) := by
                  have hx : keysOf p1 = keysOf ⟨r2 :: rest2⟩ := by rw [e1, hpp]
                  simpa [keysOf] using hx
                show List.map (fun reg => reg.map Prod.fst) (inj.deps :: p1.chain)
                    = List.map (fun reg => reg.map Prod.fst) inj.chain
                rw [List.map_cons, hkp, hdeps, hc]
                simp
              cases r1 with
              | error e => simpa using goalkeys
              | ok vs => simpa using goalkeys
    · intro p inj w
      show keysOf ((interpStep (interp n)).getF p inj w).2.2.1 = keysOf inj
      simp only [interpStep, applyF_eq]
      cases p with
      | ObjectProvider v tok => rfl
      | ClassProvider clazz sing inst tok =>
        rcases ha : Injector.apply n inj w clazz with ⟨ra, inj1, w1⟩
        have e1 : keysOf inj1 = keysOf inj := by
          have := ihA inj w clazz; rw [ha] at this; exact this
        simp only [ha]
        cases sing with
        | false => cases ra with
          | error e => simp [e1]
          | ok v1 => simp [e1]
        | true =>
          cases inst with
          | none => cases ra with
            | error e => simp [e1]
            | ok v1 => simp [e1]
          | some v =>
            cases ht : v.truthy with
            | true => simp [ht]
            | false =>
              cases ra with
              | error e => simp [ht, e1]
              | ok v1 => simp [ht, e1]
      | FactoryProvider f sing inst tok =>
        rcases ha : Injector.apply n inj w f with ⟨ra, inj1, w1⟩
        have e1 : keysOf inj1 = keysOf inj := by
          have := ihA inj w f; rw [ha] at this; exact this
        simp only [ha]
        cases sing with
        | false => cases ra with
          | error e => simp [e1]
          | ok v1 => simp [e1]
        | true =>
          cases inst with
          | none => cases ra with
            | error e => simp [e1]
            | ok v1 => simp [e1]
          | some v =>
            cases ht : v.truthy with
            | true => simp [ht]
            | false =>
              cases ra with
              | error e => simp [ht, e1]
              | ok v1 => simp [ht, e1]
    · intro inj w tg
      rw [apply_succ]
      cases tg.manifest with
      | none => rfl
      | some toks =>
        simp only []
        rcases hr : Injector.resolve n inj w toks with ⟨r1, inj1, w1⟩
        have e1 : keysOf inj1 = keysOf inj := by
          have := ihR inj w toks; rw [hr] at this; exact this
        cases r1 with
        | error e => simpa using e1
        | ok vs =>
          cases htp : tg.hasPrototype with
          | true => simp [htp, e1]
          | false => simp [htp, e1]

theorem hasKey_eq_any (l : List (Token × Provider)) (t : Token) :
    hasKey l t = (l.map Prod.fst).any fun k => decide (k = t) := by
  induction l with
  | nil => rfl
  | cons e rest ih =>
    obtain ⟨k, q⟩ := e
    by_cases hk : k = t
    · simp [hasKey, lookupDep, hk]
    · simp only [List.map_cons, List.any_cons]
      rw [← ih]
      simp [hasKey, lookupDep, hk]

theorem boundInChain_eq (i : Injector) (t : Token) :
    boundInChain i t
      = (keysOf i).any fun ks => ks.any fun k => decide (k = t) := by
  show i.chain.any (fun reg => hasKey reg t)
      = (i.chain.map fun reg => reg.map Prod.fst).any
          fun ks => ks.any fun k => decide (k = t)
  induction i.chain with
  | nil => rfl
  | cons d rest ih =>
    simp only [List.any_cons, List.map_cons]
    rw [hasKey_eq_any, ih]

theorem lookup_none_of_unbound {inj : Injector} {b : Token}
    (h : boundInChain inj b = false) : lookupDep inj.deps b = none := by
  cases hc : inj.chain with
  | nil => simp [Injector.deps, hc, lookupDep]
  | cons d rest =>
    have hkd : hasKey d b = false := by
      rw [boundInChain, hc] at h
      simp only [List.any_cons, Bool.or_eq_false_iff] at h
      exact h.1
    have hd : lookupDep d b = none := by
      cases hl : lookupDep d b with
      | none => rfl
      | some q => rw [hasKey, hl] at hkd; exact Bool.noConfusion hkd
    simpa [Injector.deps, hc] using hd

theorem boundInChain_parent {inj p : Injector} {b : Token}
    (h : boundInChain inj b = false) (hp : inj.parent? = some p) :
    boundInChain p b = false := by
  cases hc : inj.chain with
  | nil => rw [Injector.parent?, hc] at hp; exact Option.noConfusion hp
  | cons d rest =>
    cases rest with
    | nil => rw [Injector.parent?, hc] at hp; exact Option.noConfusion hp
    | cons r2 rest2 =>
      rw [Injector.parent?, hc] at hp
      have hpp : p = ⟨r2 :: rest2⟩ := (Option.some.inj hp).symm
      rw [boundInChain, hc] at h
      simp only [List.any_cons, Bool.or_eq_false_iff] at h
      rw [hpp, boundInChain]
      show ((r2 :: rest2).any fun reg => hasKey reg b) = false
      simp only [List.any_cons, Bool.or_eq_false_iff]
      exact ⟨h.2.1, h.2.2⟩

/-- A token unbound at every level of the chain can never be resolved,
whatever the fuel: the call throws. -/
theorem resolve_unbound_fails (fuel : Nat) :
    ∀ (inj : Injector) (w : World) (b : Token),
      boundInChain inj b = false →
      ∃ e, (Injector.resolve fuel inj w [b]).1 = .error e := by
  induction fuel using Nat.strong_induction_on with
  | _ fuel ih =>
    intro inj w b hub
    match fuel with
    | 0 => exact ⟨.stackOverflow, rfl⟩
    | 1 => exact ⟨.stackOverflow, rfl⟩
    | (n+2) =>
      have hlk : lookupDep inj.deps b = none := lookup_none_of_unbound hub
      rw [resolve_succ_cons, resolveOne_succ, hlk]
      cases hp : inj.parent? with
      | none => exact ⟨.unresolvedToken b, rfl⟩
      | some p =>
        have hpb : boundInChain p b = false := boundInChain_parent hub hp
        obtain ⟨e, he⟩ := ih n (by omega) p w b hpb
        simp only []
        rcases hres : Injector.resolve n p w [b] with ⟨r, p1, w1⟩
        rw [hres] at he
        have hr : r = .error e := he
        subst hr
        exact ⟨e, rfl⟩

theorem boundInChain_congr {i1 i2 : Injector} (h : keysOf i1 = keysOf i2)
    (t : Token) : boundInChain i1 t = boundInChain i2 t := by
  rw [boundInChain_eq, boundInChain_eq, h]

/-- C1: a token `t` bound only on the root `R` (as the constant `42`) and
resolved through the spawned child `C` does NOT come back unchanged: the
child's `resolve` returns the parent's whole result array as the element,
so `C.resolve(t)` yields `[[42]]` while `R.resolve(t)` yields `[42]`.  This
refutes the claim that delegation preserves the resolved value. -/
theorem c1_child_resolve_wraps_parent_result :
    (Injector.resolve 5 injR w0 [.str "t"]).1 = .ok [.num 42] ∧
    (Injector.resolve 5 injC w0 [.str "t"]).1 = .ok [.arr [.num 42]] ∧
    (Injector.resolve 5 injC w0 [.str "t"]).1
      ≠ (Injector.resolve 5 injR w0 [.str "t"]).1 := by
  refine ⟨rfl, rfl, fun h => ?_⟩
  have h1 : Value.arr [Value.num 42] = Value.num 42 :=
    (List.cons.inj (Except.ok.inj h)).1
  exact Value.noConfusion h1

/-- C2: binding `{key: "k", provideConstant: 0}` does not register a
constant provider for `"k"`.  The truthiness test on the constant fails for
`0`, so `bind` falls through to the bare-constructable branch and registers
a class provider under the option record's own identity; `"k"` stays
unbound and resolving it throws `UnresolvedToken`. -/
theorem c2_falsy_constant_misbound :
    Injector.bind argC2 rootInjector = (.ok injC2bound, false) ∧
    lookupDep injC2bound.deps (.str "k") = none ∧
    (Injector.resolve 5 injC2bound w0 [.str "k"]).1
      = .error (.unresolvedToken (.str "k")) :=
  ⟨rfl, rfl, rfl⟩

/-- C3: a singleton `FactoryProvider` whose factory returns the falsy value
`0` on its first invocation is not memoized: the `!this.instance` check
treats the cached `0` as absent, so the second `get` re-invokes the factory
(the call log grows) and returns a different value, refuting the claim that
every subsequent `get` returns the memoized result without re-invocation. -/
theorem c3_falsy_singleton_reinvoked :
    Provider.get 5 provC3 rootInjector w0 =
      (.ok (.num 0), .FactoryProvider facC3 true (some (.num 0)) (.str "f"),
        rootInjector, ⟨0, [(3, [])]⟩) ∧
    Provider.get 5 (.FactoryProvider facC3 true (some (.num 0)) (.str "f"))
        rootInjector ⟨0, [(3, [])]⟩ =
      (.ok (.num 1), .FactoryProvider facC3 true (some (.num 1)) (.str "f"),
        rootInjector, ⟨0, [(3, []), (3, [])]⟩) ∧
    Value.num 1 ≠ Value.num 0 := by
  refine ⟨rfl, rfl, fun h => ?_⟩
  have h1 : (1 : Int) = 0 := Value.num.inj h
  norm_num at h1

/-- C4: `apply(target)` with no available manifest fails with
`ManifestUnavailable` and leaves the injector and the world (in particular
the invocation log) untouched, so the target is never invoked; with a
manifest, it resolves the manifest tokens in order and, depending on the
structural constructable test, either constructs (allocating a fresh
instance) or invokes the target as a plain function, passing exactly the
resolved values as positional arguments (one new entry in the call log) and
returning the produced result. -/
theorem c4_apply_manifest_contract (fuel : Nat) (inj : Injector) (w : World)
    (tgt : Target) :
    (tgt.manifest = none →
      Injector.apply (fuel + 1) inj w tgt
        = (.error (.manifestUnavailable tgt.tid), inj, w)) ∧
    (∀ toks vs inj1 w1, tgt.manifest = some toks →
      Injector.resolve fuel inj w toks = (.ok vs, inj1, w1) →
      Injector.apply (fuel + 1) inj w tgt =
        (if tgt.hasPrototype then
          (.ok (.obj w1.nextRef), inj1,
            ⟨w1.nextRef + 1, w1.calls ++ [(tgt.tid, vs)]⟩)
         else
          (.ok (tgt.run vs (countCalls w1.calls tgt.tid)), inj1,
            ⟨w1.nextRef, w1.calls ++ [(tgt.tid, vs)]⟩))) := by
  constructor
  · intro h
    rw [apply_succ, h]
  · intro toks vs inj1 w1 hm hr
    rw [apply_succ, hm]
    simp only []
    rw [hr]

/-- Witness for C4: a constructable with manifest `["x", "y"]` over constant
bindings `1` and `2` is constructed with exactly those two resolved values,
in manifest order, and a manifest-less target fails without a call. -/
theorem c4_apply_manifest_contract_witness :
    Injector.apply 10 injC4 w0 ctorC4
      = (.ok (.obj 0), injC4, ⟨1, [(1, [.num 1, .num 2])]⟩) ∧
    Injector.apply 10 injC4 w0 (objectToTarget 8)
      = (.error (.manifestUnavailable 8), injC4, w0) := by
  constructor
  · have h := (c4_apply_manifest_contract 9 injC4 w0 ctorC4).2
      [.str "x", .str "y"] [.num 1, .num 2] injC4 w0 rfl rfl
    simpa using h
  · exact (c4_apply_manifest_contract 9 injC4 w0 (objectToTarget 8)).1 rfl

/-- C5: a root injector (`parent = null`) with no binding for `t` fails
`resolve(t)` with `UnresolvedToken` naming `t`; and a batch
`resolve(a, b)` where `b` is unbound at every level of the chain fails as a
whole (the result is an error carrying no values, hence no partial result
for `a`), whatever provider activity resolving `a` performed. -/
theorem c5_unresolved_token_and_batch_abort (fuel : Nat)
    (deps : List (Token × Provider)) (w w2 : World) (t a b : Token)
    (inj : Injector)
    (hroot : lookupDep deps t = none)
    (hb : boundInChain inj b = false) :
    (Injector.resolve (fuel + 2) ⟨[deps]⟩ w [t]).1
      = .error (.unresolvedToken t) ∧
    ∃ e, (Injector.resolve fuel inj w2 [a, b]).1 = .error e := by
  constructor
  · rw [resolve_succ_cons, resolveOne_succ]
    have hdeps : Injector.deps ⟨[deps]⟩ = deps := rfl
    rw [hdeps, hroot]
    rfl
  · match fuel with
    | 0 => exact ⟨.stackOverflow, rfl⟩
    | n + 1 =>
      rw [resolve_succ_cons]
      rcases h1 : Injector.resolveOne n inj w2 a with ⟨r1, inj1, w1⟩
      cases r1 with
      | error e => exact ⟨e, rfl⟩
      | ok v =>
        simp only []
        have hkeys : keysOf inj1 = keysOf inj := by
          have := (keysOf_preserved n).2.1 inj w2 a
          rw [h1] at this; exact this
        have hb1 : boundInChain inj1 b = false := by
          rw [boundInChain_congr hkeys b]; exact hb
        obtain ⟨e, he⟩ := resolve_unbound_fails n inj1 w1 b hb1
        rcases hres : Injector.resolve n inj1 w1 [b] with ⟨r2, inj2, w2x⟩
        rw [hres] at he
        have hr2 : r2 = .error e := he
        subst hr2
        exact ⟨e, rfl⟩

/-- Witness for C5 at an empty root injector and the tokens
`"t"`, `"a"`, `"b"`. -/
theorem c5_unresolved_token_and_batch_abort_witness :
    (Injector.resolve 5 ⟨[[]]⟩ w0 [.str "t"]).1
      = .error (.unresolvedToken (.str "t")) ∧
    ∃ e, (Injector.resolve 3 rootInjector w0 [.str "a", .str "b"]).1
      = .error e :=
  c5_unresolved_token_and_batch_abort 3 [] w0 w0 (.str "t") (.str "a")
    (.str "b") rootInjector rfl rfl

/-- C6: a second `bind` whose argument resolves to a provider for an
already-registered token `k` is a no-op: it returns the same injector (for
chaining) together with the duplicate-binding warning flag, without
throwing.  The registry — and therefore what `resolve(k)` produces — is
exactly what it was with the first provider. -/
theorem c6_duplicate_bind_noop (inj : Injector) (arg : BindArg) (k : Token)
    (p1 p2 : Provider)
    (h1 : lookupDep inj.deps k = some p1)
    (h2 : mkProviderFromArg arg = some p2)
    (h3 : p2.token = k) :
    Injector.bind arg inj = (.ok inj, true) := by
  rw [Injector.bind, h2]
  simp only []
  rw [Injector.bindP, h3]
  simp [hasKey, h1]

/-- Witness for C6: rebinding token `"k"` (bound to the constant `1`) with
a provider for the constant `2` warns and leaves the injector unchanged. -/
theorem c6_duplicate_bind_noop_witness :
    Injector.bind (.provider 5 provP2) injK = (.ok injK, true) :=
  c6_duplicate_bind_noop injK (.provider 5 provP2) (.str "k") provP1 provP2
    rfl rfl rfl

/-- C7: the global-injector one-time lock.  A read while no instance is
stored creates a root injector (`parent = null`), stores it, and sets the
lock flag; an assignment while the flag is down succeeds and sets the flag;
any assignment once the flag is up (that is, after any read or successful
assignment) throws `GlobalInjectorAlreadySet` and leaves the stored
injector unchanged. -/
theorem c7_global_injector_lifecycle (gs : GlobalState) (v v2 : Injector) :
    (gs.globalInjector = none →
      getGlobalInjector gs = (rootInjector, ⟨true, some rootInjector⟩) ∧
      rootInjector.parent? = none) ∧
    (gs.isReassigned = false →
      setGlobalInjector v gs = (.ok (), ⟨true, some v⟩)) ∧
    (gs.isReassigned = true →
      setGlobalInjector v2 gs = (.error .globalInjectorAlreadySet, gs)) := by
  refine ⟨fun h => ⟨?_, rfl⟩, fun h => ?_, fun h => ?_⟩
  · rw [getGlobalInjector, h]
  · rw [setGlobalInjector, h]
    rfl
  · rw [setGlobalInjector, h]
    rfl

/-- Witness for C7: the three transitions from concrete states. -/
theorem c7_global_injector_lifecycle_witness :
    getGlobalInjector initialGlobalState
      = (rootInjector, ⟨true, some rootInjector⟩) ∧
    setGlobalInjector rootInjector initialGlobalState
      = (.ok (), ⟨true, some rootInjector⟩) ∧
    setGlobalInjector rootInjector ⟨true, some rootInjector⟩
      = (.error .globalInjectorAlreadySet, ⟨true, some rootInjector⟩) :=
  ⟨((c7_global_injector_lifecycle initialGlobalState rootInjector
      rootInjector).1 rfl).1,
   (c7_global_injector_lifecycle initialGlobalState rootInjector
      rootInjector).2.1 rfl,
   (c7_global_injector_lifecycle ⟨true, some rootInjector⟩ rootInjector
      rootInjector).2.2 rfl⟩

/-- C8: a token `k` locally bound to a constant (object) provider wrapping
`v` resolves to `[v]` with the injector and world unchanged; running the
same call again on the returned state yields the identical `[v]` — the very
same value (hence the same object reference), never a copy. -/
theorem c8_constant_roundtrip (fuel : Nat) (inj : Injector) (w : World)
    (k : Token) (v : Value)
    (h : lookupDep inj.deps k = some (.ObjectProvider v k)) :
    Injector.resolve (fuel + 3) inj w [k] = (.ok [v], inj, w) ∧
    Injector.resolve (fuel + 3) (Injector.resolve (fuel + 3) inj w [k]).2.1
        (Injector.resolve (fuel + 3) inj w [k]).2.2 [k]
      = (.ok [v], inj, w) := by
  obtain ⟨cs⟩ := inj
  cases cs with
  | nil => exact absurd h (by simp [Injector.deps, lookupDep])
  | cons d rest =>
    have hd : lookupDep d k = some (.ObjectProvider v k) := h
    have main : Injector.resolve (fuel + 3) ⟨d :: rest⟩ w [k]
        = (.ok [v], ⟨d :: rest⟩, w) := by
      rw [resolve_succ_cons, resolveOne_succ]
      have hdeps : Injector.deps ⟨d :: rest⟩ = d := rfl
      rw [hdeps, hd]
      simp only []
      have hget : Provider.get (fuel + 1) (.ObjectProvider v k) ⟨d :: rest⟩ w
          = (.ok v, .ObjectProvider v k, ⟨d :: rest⟩, w) := rfl
      rw [hget]
      simp only []
      rw [hdeps, setEntry_self hd]
      rw [resolve_succ_nil]
      rfl
    exact ⟨main, by rw [main]; exact main⟩

/-- Witness for C8 at the constant `1` bound under `"k"`. -/
theorem c8_constant_roundtrip_witness :
    Injector.resolve 3 injK w0 [.str "k"] = (.ok [.num 1], injK, w0) ∧
    Injector.resolve 3 (Injector.resolve 3 injK w0 [.str "k"]).2.1
        (Injector.resolve 3 injK w0 [.str "k"]).2.2 [.str "k"]
      = (.ok [.num 1], injK, w0) :=
  c8_constant_roundtrip 0 injK w0 (.str "k") (.num 1) rfl

/-- C9: a successful `bind` is a one-entry frame: every binding present
before the call is still present and unchanged afterwards, every token
other than the bound provider's resolved token maps exactly as before, the
registry grows by at most one entry, and the rest of the chain (the parent
injectors) is untouched. -/
theorem c9_bind_frame (arg : BindArg) (inj inj2 : Injector) (warned : Bool)
    (h : Injector.bind arg inj = (.ok inj2, warned)) :
    (∀ t p0, lookupDep inj.deps t = some p0 →
      lookupDep inj2.deps t = some p0) ∧
    (∀ p, mkProviderFromArg arg = some p →
      ∀ t, t ≠ p.token → lookupDep inj2.deps t = lookupDep inj.deps t) ∧
    inj2.deps.length ≤ inj.deps.length + 1 ∧
    inj2.chain.tail = inj.chain.tail := by
  cases hm : mkProviderFromArg arg with
  | none =>
    rw [Injector.bind, hm] at h
    simp at h
  | some p =>
    rw [Injector.bind, hm] at h
    simp only [] at h
    rw [Injector.bindP] at h
    by_cases hk : hasKey inj.deps p.token
    · rw [if_pos hk] at h
      have hinj : inj = inj2 := Except.ok.inj (Prod.mk.inj h).1
      cases hinj
      exact ⟨fun _ _ hp => hp, fun _ _ _ _ => rfl, Nat.le_succ _, rfl⟩
    · rw [if_neg hk] at h
      have hinj2 : inj2 = ⟨setEntry inj.deps p.token p :: inj.chain.tail⟩ :=
        (Except.ok.inj (Prod.mk.inj h).1).symm
      have hnone : lookupDep inj.deps p.token = none := by
        cases hl : lookupDep inj.deps p.token with
        | none => rfl
        | some q => rw [hasKey, hl] at hk; exact absurd rfl hk
      have happ : setEntry inj.deps p.token p
          = inj.deps ++ [(p.token, p)] := setEntry_append_of_none p hnone
      subst hinj2
      have hdeps2 : (Injector.mk (setEntry inj.deps p.token p
          :: inj.chain.tail)).deps = setEntry inj.deps p.token p := rfl
      refine ⟨?_, ?_, ?_, rfl⟩
      · intro t p0 hp
        rw [hdeps2, happ]
        exact lookup_append_left hp
      · intro p' hp' t ht
        have hpp : p' = p := (Option.some.inj hp').symm
        subst hpp
        rw [hdeps2, happ]
        cases hl : lookupDep inj.deps t with
        | some q => exact lookup_append_left hl
        | none =>
          rw [lookup_append_of_none hl]
          show (if p'.token = t then some p' else none) = none
          rw [if_neg fun hh => ht hh.symm]
      · rw [hdeps2, happ]
        simp

/-- Witness for C9: binding the constant `5` under the fresh token `"j"`
on an injector that already binds `"k"` keeps the `"k"` binding and adds
one entry. -/
theorem c9_bind_frame_witness :
    lookupDep injC9bound.deps (.str "k") = some provP1 ∧
    injC9bound.deps.length ≤ injK.deps.length + 1 :=
  ⟨(c9_bind_frame argC9 injK injC9bound false rfl).1 (.str "k") provP1 rfl,
   (c9_bind_frame argC9 injK injC9bound false rfl).2.2.1⟩

/-- C10: constructing an injector with the parent parameter omitted reads
the global injector and uses it as the parent, and that read locks the
global state: afterwards (whether the read lazily created the default
instance or found an explicitly assigned one) every explicit assignment
fails with `GlobalInjectorAlreadySet`. -/
theorem c10_default_parent_locks_global (gs : GlobalState) (v : Injector)
    (hwf : gs.wf) :
    (mkInjector none gs).1.parent? = some (getGlobalInjector gs).1 ∧
    (mkInjector none gs).2.isReassigned = true ∧
    (setGlobalInjector v (mkInjector none gs).2).1
      = .error .globalInjectorAlreadySet := by
  cases hg : gs.globalInjector with
  | none =>
    refine ⟨?_, ?_, ?_⟩
    · rw [mkInjector, getGlobalInjector, hg]
      rfl
    · rw [mkInjector, getGlobalInjector, hg]
    · rw [mkInjector, getGlobalInjector, hg]
      rfl
  | some g =>
    have hwf' : g.chain.isEmpty = false ∧ gs.isReassigned = true := by
      have := hwf
      rw [GlobalState.wf, hg] at this
      exact this
    obtain ⟨hne, hre⟩ := hwf'
    have hget : getGlobalInjector gs = (g, gs) := by
      rw [getGlobalInjector, hg]
    have hmk : mkInjector none gs = (⟨[] :: g.chain⟩, gs) := by
      rw [mkInjector, hget]
    rw [hmk, hget]
    obtain ⟨gc⟩ := g
    cases gc with
    | nil => simp at hne
    | cons c cs =>
      refine ⟨rfl, hre, ?_⟩
      rw [setGlobalInjector, hre]
      rfl

/-- Witness for C10 from the pristine global state. -/
theorem c10_default_parent_locks_global_witness :
    (mkInjector none initialGlobalState).1.parent?
      = some (getGlobalInjector initialGlobalState).1 ∧
    (mkInjector none initialGlobalState).2.isReassigned = true ∧
    (setGlobalInjector rootInjector (mkInjector none initialGlobalState).2).1
      = .error .globalInjectorAlreadySet :=
  c10_default_parent_locks_global initialGlobalState rootInjector trivial
